import Mathlib

/-!
Verification development for the `giv` file-tree and content-search core.

The Go source is shallowly embedded: byte buffers become `List Nat` (each
element a byte value), Go strings become Lean `String` (ASCII assumed, so
byte length and character length coincide), filesystem paths inside the
tree model become component lists, the filesystem itself becomes an
explicit oracle structure, and the mutable tree is threaded through the
functions as explicit state.  Mutable package-level variables
(`FileSearchContext`) become explicit parameters.
-/

namespace GivSpec

/-! ## Byte-level helpers for the search engine -/

/-- Unicode lower-casing for the code points this development touches.
It agrees with Go's `unicode.ToLower` on ASCII letters, on the Latin-1
letters U+00C0 - U+00DE (excluding the multiplication sign U+00D7), and
on the Kelvin sign U+212A (which maps to the one-byte ASCII 'k'); every
other code point is returned unchanged.  This is a restriction of Go's
full case table - the table is data, not structure, and every entry
listed here matches Go's table; the theorems below either restrict to
ASCII input or evaluate on the listed code points. -/
def runeToLower (r : Nat) : Nat :=
  if 65 ≤ r ∧ r ≤ 90 then r + 32
  else if 0xC0 ≤ r ∧ r ≤ 0xDE ∧ r ≠ 0xD7 then r + 32
  else if r = 0x212A then 0x6B
  else r

/-- UTF-8 encoding of a scalar value (`utf8.EncodeRune`); the runes
produced by `runeToLower` on decoded input are all valid scalar values. -/
def utf8Encode (r : Nat) : List Nat :=
  if r < 0x80 then [r]
  else if r < 0x800 then [0xC0 + r / 64, 0x80 + r % 64]
  else if r < 0x10000 then [0xE0 + r / 4096, 0x80 + (r / 64) % 64, 0x80 + r % 64]
  else [0xF0 + r / 262144, 0x80 + (r / 4096) % 64, 0x80 + (r / 64) % 64, 0x80 + r % 64]

/-- Continuation-byte test: `0x80 ≤ b ≤ 0xBF`. -/
def isCont (b : Nat) : Bool := 0x80 ≤ b && b ≤ 0xBF

/-- Second-byte acceptance for a given leading byte, following Go's
`utf8` accept ranges (ruling out overlong encodings, surrogates and
values beyond U+10FFFF). -/
def accept2 (b0 b1 : Nat) : Bool :=
  if b0 = 0xE0 then 0xA0 ≤ b1 && b1 ≤ 0xBF
  else if b0 = 0xED then 0x80 ≤ b1 && b1 ≤ 0x9F
  else if b0 = 0xF0 then 0x90 ≤ b1 && b1 ≤ 0xBF
  else if b0 = 0xF4 then 0x80 ≤ b1 && b1 ≤ 0x8F
  else isCont b1

/-- Decode one rune from the front of a byte buffer, modelling Go's
`utf8.DecodeRune`: a well-formed 1-4 byte sequence yields its scalar
value and the remaining bytes; any malformed prefix yields U+FFFD and
consumes exactly one byte. -/
def utf8Step : List Nat → Nat × List Nat
  | [] => (0xFFFD, [])
  | b0 :: rest =>
    if b0 < 0x80 then (b0, rest)
    else if 0xC2 ≤ b0 && b0 ≤ 0xDF then
      match rest with
      | b1 :: rest2 =>
        if isCont b1 then ((b0 - 0xC0) * 64 + (b1 - 0x80), rest2)
        else (0xFFFD, rest)
      | [] => (0xFFFD, [])
    else if 0xE0 ≤ b0 && b0 ≤ 0xEF then
      match rest with
      | b1 :: b2 :: rest2 =>
        if accept2 b0 b1 && isCont b2 then
          ((b0 - 0xE0) * 4096 + (b1 - 0x80) * 64 + (b2 - 0x80), rest2)
        else (0xFFFD, rest)
      | _ => (0xFFFD, rest)
    else if 0xF0 ≤ b0 && b0 ≤ 0xF4 then
      match rest with
      | b1 :: b2 :: b3 :: rest2 =>
        if accept2 b0 b1 && isCont b2 && isCont b3 then
          ((b0 - 0xF0) * 262144 + (b1 - 0x80) * 4096 + (b2 - 0x80) * 64 + (b3 - 0x80), rest2)
        else (0xFFFD, rest)
      | _ => (0xFFFD, rest)
    else (0xFFFD, rest)

/-- Fold loop for `toLowerBytes`: decode a rune, lower it, re-encode it,
repeat on the remaining bytes.  `utf8Step` consumes at least one byte
per call, so fuel equal to the buffer length always suffices. -/
def toLowerLoop : Nat → List Nat → List Nat
  | 0, _ => []
  | _, [] => []
  | fuel + 1, b0 :: rest =>
    let s := utf8Step (b0 :: rest)
    utf8Encode (runeToLower s.1) ++ toLowerLoop fuel s.2

/-- ToLower of a byte buffer, modelling `bytes.ToLower`: the buffer is
decoded as UTF-8 (invalid bytes become U+FFFD), each rune is lowered and
re-encoded.  Case maps and the U+FFFD replacement can change byte
widths, so the folded buffer's length may differ from the original's -
the source of the C7 counterexample below. -/
def toLowerBytes (l : List Nat) : List Nat := toLowerLoop l.length l

/-- Bytes of an ASCII string, for writing concrete test inputs. -/
def strBytes (s : String) : List Nat :=
  s.toList.map Char.toNat

/-- Drop a single trailing carriage return, as `bufio.ScanLines` does. -/
def dropCR (l : List Nat) : List Nat :=
  match l.getLast? with
  | some 13 => l.dropLast
  | _ => l

/-- Accumulator-based line splitter; `cur` holds the bytes of the current
line in reverse order. -/
def splitLinesAux (cur : List Nat) : List Nat → List (List Nat)
  | [] => if cur = [] then [] else [dropCR cur.reverse]
  | 10 :: rest => dropCR cur.reverse :: splitLinesAux [] rest
  | b :: rest => splitLinesAux (b :: cur) rest

/-- Standard newline splitting of a byte stream, modelling a
`bufio.Scanner` with the default `ScanLines` split: tokens are separated
by a line feed, the line feed is not part of the token, a trailing
carriage return is dropped, and a final unterminated token is emitted
only when non-empty. -/
def splitLines (input : List Nat) : List (List Nat) :=
  splitLinesAux [] input

/-- Index of the first occurrence of `needle` in `hay`, modelling
`bytes.Index` (`none` for Go's `-1`). -/
def bIndex (hay needle : List Nat) : Option Nat :=
  match hay with
  | [] => if needle = [] then some 0 else none
  | _ :: t =>
    if needle.isPrefixOf hay then some 0
    else (bIndex t needle).map (fun j => j + 1)

/-- Go slice expression `l[a:b]`. -/
def goSlice (l : List Nat) (a b : Nat) : List Nat :=
  (l.drop a).take (b - a)

/-- Go's `copy(dst[ti:], src)`: overwrite bytes of `dst` starting at
offset `ti` with as much of `src` as fits, leaving the rest unchanged. -/
def copyAt (dst : List Nat) (ti : Nat) (src : List Nat) : List Nat :=
  dst.take ti ++ src.take (dst.length - ti) ++
    dst.drop (ti + min src.length (dst.length - ti))

/-! ## Search data model -/

/-- Modelled from the spec: `TextRegion`/`NewTextRegion` (defined in the
repository's text-buffer file, which is not among the provided sources)
is a record of start line, start byte column, end line, end byte column. -/
structure TextRegion where
  stLn : Nat
  stCh : Nat
  edLn : Nat
  edCh : Nat
  deriving DecidableEq, Repr

/-- One match found by the search: the region and the context snippet. -/
structure FileSearchMatch where
  Reg : TextRegion
  Text : List Nat
  deriving DecidableEq, Repr

/-- Default value of the mutable package variable `FileSearchContext`. -/
def fileSearchContext : Nat := 30

/-- Bytes of the start markup token `<mark>`. -/
def mstBytes : List Nat := strBytes "<mark>"

/-- Bytes of the end markup token `</mark>`. -/
def medBytes : List Nat := strBytes "</mark>"

/-- Snippet construction for one match, following the Go copy sequence:
allocate `tlen` zero bytes, then copy in the leading context, the start
mark, the matched bytes, the end mark, and the trailing context.  `bo` is
the original (unfolded) line, `i`/`ci` the match start/end columns,
`cist`/`cied` the clamped context bounds, `fsz` the pattern length used
to advance the write offset. -/
def snippetOf (bo : List Nat) (i ci cist cied fsz : Nat) : List Nat :=
  let tlen := mstBytes.length + medBytes.length + cied - cist
  let txt0 := List.replicate tlen 0
  let txt1 := copyAt txt0 0 (goSlice bo cist i)
  let ti1 := i - cist
  let txt2 := copyAt txt1 ti1 mstBytes
  let ti2 := ti1 + mstBytes.length
  let txt3 := copyAt txt2 ti2 (goSlice bo i ci)
  let ti3 := ti2 + fsz
  let txt4 := copyAt txt3 ti3 medBytes
  let ti4 := ti3 + medBytes.length
  copyAt txt4 ti4 (goSlice bo ci cied)

/-- Inner per-line loop of `ByteBufSearch`: repeatedly find the next
occurrence of `findeff` in the (possibly case-folded) line `b` starting
at cursor `ci`, recording a region and snippet against the original line
bytes `bo`, then advance the cursor past the match.  The cursor advances
by at least the pattern length each step, so `b.length + 1` units of fuel
always suffice; `byteBufSearch` rules out the empty pattern before this
loop runs. -/
def searchLoop (ctx : Nat) (bo b findeff : List Nat) (ln : Nat) :
    Nat → Nat → List FileSearchMatch
  | _, 0 => []
  | ci, fuel + 1 =>
    if ci < b.length then
      match bIndex (b.drop ci) findeff with
      | none => []
      | some j =>
        let i := j + ci
        let ci2 := i + findeff.length
        let reg : TextRegion := ⟨ln, i, ln, ci2⟩
        let cist := i - ctx
        let cied := min (ci2 + ctx) b.length
        let txt := snippetOf bo i ci2 cist cied findeff.length
        ⟨reg, txt⟩ :: searchLoop ctx bo b findeff ln ci2 fuel
    else []

/-- Case-folding of the needle (`findeff` in the Go source). -/
def findEff (find : List Nat) (ign : Bool) : List Nat :=
  if ign then toLowerBytes find else find

/-- Per-line scanner loop of `ByteBufSearch`: fold the line when
case-insensitive, run the inner loop, advance the line counter. -/
def lineLoop (ctx : Nat) (findeff : List Nat) (ign : Bool) :
    Nat → List (List Nat) → List FileSearchMatch
  | _, [] => []
  | ln, bo :: rest =>
    let b := if ign then toLowerBytes bo else bo
    searchLoop ctx bo b findeff ln 0 (b.length + 1) ++
      lineLoop ctx findeff ign (ln + 1) rest

/-- ByteBufSearch: literal substring search over a byte stream with the
given case-sensitivity, returning the number of occurrences and the match
list.  `ctx` models the package variable `FileSearchContext`.  The Go
code counts matches in lockstep with appending them, so the count is the
list length. -/
def byteBufSearch (ctx : Nat) (input find : List Nat) (ign : Bool) :
    Nat × List FileSearchMatch :=
  if find.length = 0 then (0, [])
  else
    let ms := lineLoop ctx (findEff find ign) ign 0 (splitLines input)
    (ms.length, ms)

/-- File oracle for the whole-file search variant: maps a file name to
its content, or `none` when the file cannot be opened. -/
structure FileFS where
  files : String → Option (List Nat)

/-- FileSearch: open the file (failure logs and returns zero matches),
delegate to `byteBufSearch`, and close the handle afterwards (the
deferred close is modelled by threading the list of open handles). -/
def fileSearch (ffs : FileFS) (opened : List String) (ctx : Nat)
    (filename : String) (find : List Nat) (ign : Bool) :
    (Nat × List FileSearchMatch) × List String :=
  match ffs.files filename with
  | none => ((0, []), opened)
  | some content =>
    let opened1 := filename :: opened
    let res := byteBufSearch ctx content find ign
    (res, opened1.erase filename)

/-! ## OpenDirMap

Go's `map[string]bool` is modelled as an association list whose keys are
unique (the Go map invariant); the Bool value is the liveness mark.  The
lazy `Init` of the Go code is the identity in this model (the list is
always a valid map). -/

abbrev OpenDirMap : Type := List (String × Bool)

namespace OpenDirMap

/-- Lookup of a key, modelling `(*dm)[path]` presence and value. -/
def lookup (dm : OpenDirMap) (path : String) : Option Bool :=
  (dm.find? (fun e => e.1 = path)).map Prod.snd

/-- IsOpen returns true if the path is listed on the open map, and marks
the entry as active. -/
def IsOpen (dm : OpenDirMap) (path : String) : OpenDirMap × Bool :=
  match dm.lookup path with
  | some _ => (dm.map (fun e => if e.1 = path then (e.1, true) else e), true)
  | none => (dm, false)

/-- SetOpen adds the given path to the open map. -/
def SetOpen (dm : OpenDirMap) (path : String) : OpenDirMap :=
  match dm.lookup path with
  | some _ => dm.map (fun e => if e.1 = path then (e.1, true) else e)
  | none => dm ++ [(path, true)]

/-- SetClosed removes the given path from the open map. -/
def SetClosed (dm : OpenDirMap) (path : String) : OpenDirMap :=
  dm.filter (fun e => !(e.1 == path))

/-- ClearFlags sets all the marks to false. -/
def ClearFlags (dm : OpenDirMap) : OpenDirMap :=
  dm.map (fun e => (e.1, false))

/-- RemoveStale removes all entries that have not been accessed since
ClearFlags was called. -/
def RemoveStale (dm : OpenDirMap) : OpenDirMap :=
  dm.filter (fun e => e.2)

end OpenDirMap

/-- Query `IsOpen` on each key of `S` in order, keeping the marked map.
This drives the mark phase of the mark/sweep cycle. -/
def markAllOpen (dm : OpenDirMap) (S : List String) : OpenDirMap :=
  S.foldl (fun acc k => (acc.IsOpen k).1) dm

/-! ## File-tree data model

The filesystem is an explicit oracle: `stat` returns the metadata of a
path (`none` models a stat error) and `listing` returns the immediate
entries of a directory in the order the enumeration (`filepath.Walk`,
which visits entries in lexical order) would produce them.  Mutable tree
nodes become a pure inductive; the shared root state (root path, sort
policy, node type, OpenDirMap) is threaded explicitly.  Recursion over
the filesystem is bounded by explicit fuel consumed on every call: with
enough fuel the functions follow exactly the Go control flow, and every
fuel-exhaustion branch returns its inputs unchanged. -/

structure FileInfo where
  Name : String
  IsDir : Bool
  deriving DecidableEq, Repr

abbrev DirPath := List String

structure FS where
  stat : DirPath → Option FileInfo
  listing : DirPath → List FileInfo

inductive FileNode where
  | mk (typ : Nat) (Nm : String) (FPath : DirPath) (Info : FileInfo)
       (opn : Bool) (Buf : Option Nat) (Kids : List FileNode)

def FileNode.typ : FileNode → Nat | .mk t _ _ _ _ _ _ => t
def FileNode.Nm : FileNode → String | .mk _ n _ _ _ _ _ => n
def FileNode.FPath : FileNode → DirPath | .mk _ _ p _ _ _ _ => p
def FileNode.Info : FileNode → FileInfo | .mk _ _ _ i _ _ _ => i
def FileNode.opn : FileNode → Bool | .mk _ _ _ _ o _ _ => o
def FileNode.Buf : FileNode → Option Nat | .mk _ _ _ _ _ b _ => b
def FileNode.Kids : FileNode → List FileNode | .mk _ _ _ _ _ _ k => k

def FileNode.SetName : FileNode → String → FileNode
  | .mk t _ p i o b k, n => .mk t n p i o b k
def FileNode.setFPath : FileNode → DirPath → FileNode
  | .mk t n _ i o b k, p => .mk t n p i o b k
def FileNode.setInfo : FileNode → FileInfo → FileNode
  | .mk t n p _ o b k, i => .mk t n p i o b k
def FileNode.SetOpen : FileNode → FileNode
  | .mk t n p i _ b k => .mk t n p i true b k
def FileNode.setKids : FileNode → List FileNode → FileNode
  | .mk t n p i o b _, k => .mk t n p i o b k

structure FileTreeState where
  FPath : DirPath
  DirsOnTop : Bool
  NodeType : Nat
  OpenDirs : OpenDirMap
  deriving DecidableEq, Repr

def baseName (p : DirPath) : String := p.getLastD ""
def joinPath (p : DirPath) (n : String) : DirPath := p ++ [n]

def relPath (base p : DirPath) : Option DirPath :=
  if p = base then some []
  else if base.isPrefixOf p then some (p.drop base.length)
  else none


def joinWithSlash : List String → String
  | [] => ""
  | [s] => s
  | s :: rest => s ++ "/" ++ joinWithSlash rest

def splitCharsOnSlash (cur : List Char) : List Char → List String
  | [] => [String.mk cur.reverse]
  | c :: rest =>
    if c = '/' then String.mk cur.reverse :: splitCharsOnSlash [] rest
    else splitCharsOnSlash (c :: cur) rest

def splitOnSlash (s : String) : List String := splitCharsOnSlash [] s.toList

def strIsPrefixOf (a b : String) : Bool := a.toList.isPrefixOf b.toList

def strEndsWith (b s : String) : Bool := s.toList.isSuffixOf b.toList

def relKey (base p : DirPath) : String :=
  match relPath base p with
  | some [] => "."
  | some comps => joinWithSlash comps
  | none => ""

def isDirOpenRoot (rt : FileTreeState) (fpath : DirPath) : FileTreeState × Bool :=
  if fpath = rt.FPath then (rt, true)
  else
    let r := rt.OpenDirs.IsOpen (relKey rt.FPath fpath)
    ({ rt with OpenDirs := r.1 }, r.2)

def FileNode.ConfigOfFiles (rt : FileTreeState) (fs : FS) (path : DirPath) :
    List (Nat × String) :=
  let step := fun (cfg : List (Nat × String) × List (Nat × String)) (e : FileInfo) =>
    if rt.DirsOnTop then
      if e.IsDir then (cfg.1 ++ [(rt.NodeType, e.Name)], cfg.2)
      else (cfg.1, cfg.2 ++ [(rt.NodeType, e.Name)])
    else (cfg.1 ++ [(rt.NodeType, e.Name)], cfg.2)
  let r := (fs.listing path).foldl step ([], [])
  if rt.DirsOnTop then r.1 ++ r.2 else r.1

def ConfigChildren (oldKids : List FileNode) (config : List (Nat × String)) :
    List FileNode :=
  config.map (fun tn =>
    match oldKids.find? (fun k => k.typ == tn.1 && k.Nm == tn.2) with
    | some k => k
    | none => FileNode.mk tn.1 tn.2 [] ⟨tn.2, false⟩ false none [])

mutual
def FileNode.ReadDir (fs : FS) : Nat → FileTreeState → FileNode → DirPath →
    FileTreeState × FileNode × Option Unit
  | 0, rt, fn, _ => (rt, fn, some ())
  | fuel + 1, rt, fn, path =>
    let fn2 := (fn.SetName (baseName path)).setFPath path
    match fs.stat path with
    | none => (rt, fn2, some ())
    | some info =>
      let fn4 := (fn2.setInfo info).SetOpen
      let config := FileNode.ConfigOfFiles rt fs path
      let kids1 := ConfigChildren fn4.Kids config
      let r := updateKidsLoop fs fuel rt kids1 path
      (r.1, fn4.setKids r.2, none)

def updateKidsLoop (fs : FS) : Nat → FileTreeState → List FileNode → DirPath →
    FileTreeState × List FileNode
  | 0, rt, kids, _ => (rt, kids)
  | fuel + 1, rt, kids, path =>
    match kids with
    | [] => (rt, [])
    | k :: ks =>
      let r1 := FileNode.SetNodePath fs fuel rt k (joinPath path k.Nm)
      let r2 := updateKidsLoop fs fuel r1.1 ks path
      (r2.1, r1.2.1 :: r2.2)

def FileNode.SetNodePath (fs : FS) : Nat → FileTreeState → FileNode → DirPath →
    FileTreeState × FileNode × Option Unit
  | 0, rt, fn, _ => (rt, fn, some ())
  | fuel + 1, rt, fn, path =>
    FileNode.UpdateNode fs fuel rt (fn.setFPath path)

def FileNode.UpdateNode (fs : FS) : Nat → FileTreeState → FileNode →
    FileTreeState × FileNode × Option Unit
  | 0, rt, fn => (rt, fn, some ())
  | fuel + 1, rt, fn =>
    match fs.stat fn.FPath with
    | none => (rt, fn, some ())
    | some info =>
      let fn1 := fn.setInfo info
      if info.IsDir then
        let r := isDirOpenRoot rt fn1.FPath
        if r.2 then
          let rd := FileNode.ReadDir fs fuel r.1 fn1 fn1.FPath
          (rd.1, rd.2.1, none)
        else (r.1, fn1, none)
      else (rt, fn1, none)
end

def FileNode.OpenDir (fs : FS) (fuel : Nat) (rt : FileTreeState) (fn : FileNode) :
    FileTreeState × FileNode :=
  let fn1 := fn.SetOpen
  let rt1 := { rt with OpenDirs := rt.OpenDirs.SetOpen (relKey rt.FPath fn1.FPath) }
  let r := FileNode.UpdateNode fs fuel rt1 fn1
  (r.1, r.2.1)

def FileNode.ChildByName (fn : FileNode) (name : String) : Option FileNode :=
  fn.Kids.find? (fun k => k.Nm == name)

def openDirsToLoop (fs : FS) (fuel : Nat) :
    FileTreeState → FileNode → List String → FileTreeState × Option FileNode
  | rt, cfn, [] => (rt, some cfn)
  | rt, cfn, dr :: rest =>
    match cfn.ChildByName dr with
    | none => if rest = [] then (rt, some cfn) else (rt, none)
    | some sfn =>
      if sfn.Info.IsDir || rest = [] then
        let r := if rest ≠ [] && !sfn.opn then FileNode.OpenDir fs fuel rt sfn else (rt, sfn)
        openDirsToLoop fs fuel r.1 r.2 rest
      else (rt, none)

def FileNode.OpenDirsTo (fs : FS) (fuel : Nat) (rt : FileTreeState) (fn : FileNode)
    (path : DirPath) : FileTreeState × Option FileNode :=
  match relPath fn.FPath path with
  | some [] => (rt, some fn)
  | none => (rt, none)
  | some dirs => openDirsToLoop fs fuel rt fn dirs

def pathToString (p : DirPath) : String := joinWithSlash ("" :: p)

def stringToPath (s : String) : DirPath := (splitOnSlash s).filter (fun c => !(c == ""))

def goTake2 (s : String) : Option String :=
  if 2 ≤ s.length then some (String.mk (s.toList.take 2)) else none

def dropLeadingDotDot : List String → Option (List String)
  | [] => none
  | d :: rest => if d ≠ ".." then some (d :: rest) else dropLeadingDotDot rest

mutual
def findSuffix (s : String) : FileNode → Option FileNode
  | .mk t n p i o b kids =>
    if strEndsWith (pathToString p) s then some (.mk t n p i o b kids)
    else findSuffixList s kids
def findSuffixList (s : String) : List FileNode → Option FileNode
  | [] => none
  | k :: ks =>
    match findSuffix s k with
    | some r => some r
    | none => findSuffixList s ks
end

def FileNode.FindFile (fs : FS) (fuel : Nat) (rt : FileTreeState) (fn : FileNode)
    (fnm : String) : Option (FileTreeState × Option FileNode) :=
  if fnm = "" then some (rt, none)
  else
    match goTake2 fnm with
    | none => none
    | some pre =>
      let fneff := if pre = ".." then
          (match dropLeadingDotDot (splitOnSlash fnm) with
           | some rest => joinWithSlash rest
           | none => fnm)
        else fnm
      if strIsPrefixOf (pathToString fn.FPath) fneff then
        let r := FileNode.OpenDirsTo fs fuel rt fn (stringToPath fneff)
        match r.2 with
        | some ffn => some (r.1, some ffn)
        | none => some (r.1, none)
      else
        some (rt, findSuffix fneff fn)

/-- Descent relation mirroring the claim's premise for the success case:
from node `cfn` with remaining components `dirs`, every non-terminal
component resolves to a directory child (which is opened on the way when
it is closed), and the terminal component has no matching child; `out` is
the tree state at that point paired with the deepest found ancestor. -/
inductive ReachesMissing (fs : FS) (fuel : Nat) :
    FileTreeState → FileNode → List String → FileTreeState × FileNode → Prop
  | last {rt cfn d} :
      cfn.ChildByName d = none →
      ReachesMissing fs fuel rt cfn [d] (rt, cfn)
  | step {rt cfn d rest sfn out} :
      cfn.ChildByName d = some sfn →
      sfn.Info.IsDir = true →
      rest ≠ [] →
      ReachesMissing fs fuel
        (if rest ≠ [] && !sfn.opn then FileNode.OpenDir fs fuel rt sfn else (rt, sfn)).1
        (if rest ≠ [] && !sfn.opn then FileNode.OpenDir fs fuel rt sfn else (rt, sfn)).2
        rest out →
      ReachesMissing fs fuel rt cfn (d :: rest) out

/-- Descent relation for the failure case: after zero or more directory
steps, a non-terminal component resolves to an existing child that is not
a directory. -/
inductive ReachesNonDir (fs : FS) (fuel : Nat) :
    FileTreeState → FileNode → List String → Prop
  | here {rt cfn d rest sfn} :
      cfn.ChildByName d = some sfn →
      sfn.Info.IsDir = false →
      rest ≠ [] →
      ReachesNonDir fs fuel rt cfn (d :: rest)
  | step {rt cfn d rest sfn} :
      cfn.ChildByName d = some sfn →
      sfn.Info.IsDir = true →
      rest ≠ [] →
      ReachesNonDir fs fuel
        (if rest ≠ [] && !sfn.opn then FileNode.OpenDir fs fuel rt sfn else (rt, sfn)).1
        (if rest ≠ [] && !sfn.opn then FileNode.OpenDir fs fuel rt sfn else (rt, sfn)).2
        rest →
      ReachesNonDir fs fuel rt cfn (d :: rest)

/-! ### Concrete structures used by witnesses and counterexamples -/

/-- Counterexample line for C7: the Kelvin sign U+212A (three bytes
0xE2 0x84 0xAA, which `unicode.ToLower` maps to the one-byte ASCII 'k')
followed by "FOO". -/
def kelvinLine : List Nat := [0xE2, 0x84, 0xAA, 0x46, 0x4F, 0x4F]

/-- Concrete file oracle used by the C8 witness. -/
def ffsDemo : FileFS :=
  ⟨fun s => if s = "f" then some (strBytes "foo bar foo") else none⟩

def demoFS : FS where
  stat := fun p => if p = ["r"] then some ⟨"r", true⟩
    else if p = ["r", "a"] then some ⟨"a", false⟩
    else if p = ["r", "d"] then some ⟨"d", true⟩
    else none
  listing := fun p => if p = ["r"] then [⟨"d", true⟩, ⟨"a", false⟩] else []

def demoRT : FileTreeState := ⟨["r"], true, 7, []⟩

def fsFail : FS := ⟨fun _ => none, fun _ => []⟩

def closedNode : FileNode := .mk 0 "n" [] ⟨"n", true⟩ false none []

def kidA : FileNode := .mk 7 "a" ["r", "a"] ⟨"a", false⟩ false (some 42) []

def dirKid : FileNode := .mk 7 "d" ["r", "d"] ⟨"d", true⟩ true none []

def treeB : FileNode := .mk 7 "r" ["r"] ⟨"r", true⟩ true none [dirKid]

def demoNodeB : FileNode := .mk 7 "r" ["r"] ⟨"r", true⟩ true none [kidA]

/-! ## Lemmas about the search embedding -/


lemma goSlice_length (l : List Nat) (a b : Nat) (hab : a ≤ b) (hb : b ≤ l.length) :
    (goSlice l a b).length = b - a := by
  simp only [goSlice, List.length_take, List.length_drop]
  omega

lemma copyAt_fill (P src : List Nat) (k ti : Nat) (hti : ti = P.length)
    (h : src.length ≤ k) :
    copyAt (P ++ List.replicate k (0:Nat)) ti src
      = (P ++ src) ++ List.replicate (k - src.length) 0 := by
  subst hti
  have h1 : (P ++ List.replicate k (0:Nat)).take P.length = P := List.take_left P _
  have h2 : (P ++ List.replicate k (0:Nat)).length - P.length = k := by simp
  have h3 : src.take k = src := List.take_of_length_le h
  have h4 : min src.length k = src.length := by omega
  have h5 : (P ++ List.replicate k (0:Nat)).drop (P.length + src.length)
      = List.replicate (k - src.length) 0 := by
    rw [List.drop_append, List.drop_replicate]
  simp only [copyAt, h1, h2, h3, h4, h5]

lemma copy_assemble (S1 S2 S3 S4 S5 : List Nat) :
    copyAt (copyAt (copyAt (copyAt (copyAt
      (List.replicate (S1.length + S2.length + S3.length + S4.length + S5.length) (0:Nat))
      0 S1) S1.length S2) (S1.length + S2.length) S3)
      (S1.length + S2.length + S3.length) S4)
      (S1.length + S2.length + S3.length + S4.length) S5
    = S1 ++ S2 ++ S3 ++ S4 ++ S5 := by
  have e1 := copyAt_fill [] S1
    (S1.length + S2.length + S3.length + S4.length + S5.length) 0 rfl (by omega)
  rw [List.nil_append, List.nil_append] at e1
  rw [e1]
  rw [copyAt_fill S1 S2 _ S1.length rfl (by omega)]
  rw [copyAt_fill (S1 ++ S2) S3 _ (S1.length + S2.length)
    (by simp only [List.length_append]) (by omega)]
  rw [copyAt_fill (S1 ++ S2 ++ S3) S4 _ (S1.length + S2.length + S3.length)
    (by simp only [List.length_append]) (by omega)]
  rw [copyAt_fill (S1 ++ S2 ++ S3 ++ S4) S5 _
    (S1.length + S2.length + S3.length + S4.length)
    (by simp only [List.length_append]) (by omega)]
  have hz : S1.length + S2.length + S3.length + S4.length + S5.length - S1.length
      - S2.length - S3.length - S4.length - S5.length = 0 := by omega
  rw [hz]
  simp [List.append_assoc]

lemma snippetOf_eq (bo : List Nat) (i ci cist cied fsz : Nat)
    (h1 : cist ≤ i) (h2 : i ≤ ci) (h3 : ci ≤ cied) (h4 : cied ≤ bo.length)
    (hf : fsz = ci - i) :
    snippetOf bo i ci cist cied fsz =
      goSlice bo cist i ++ mstBytes ++ goSlice bo i ci ++ medBytes ++ goSlice bo ci cied := by
  have l1 : (goSlice bo cist i).length = i - cist :=
    goSlice_length bo cist i h1 (le_trans (le_trans h2 h3) h4)
  have l2 : (goSlice bo i ci).length = ci - i :=
    goSlice_length bo i ci h2 (le_trans h3 h4)
  have l3 : (goSlice bo ci cied).length = cied - ci :=
    goSlice_length bo ci cied h3 h4
  have tl : mstBytes.length + medBytes.length + cied - cist
      = (goSlice bo cist i).length + mstBytes.length + (goSlice bo i ci).length
        + medBytes.length + (goSlice bo ci cied).length := by
    rw [l1, l2, l3]; omega
  simp only [snippetOf]
  rw [tl, hf, ← l2, ← l1]
  exact copy_assemble _ _ _ _ _

lemma bIndex_some (hay needle : List Nat) (j : Nat) (h : bIndex hay needle = some j) :
    needle.isPrefixOf (hay.drop j) = true ∧ j + needle.length ≤ hay.length := by
  induction hay generalizing j with
  | nil =>
    simp only [bIndex] at h
    by_cases hn : needle = []
    · subst hn
      simp at h
      subst h
      simp [List.isPrefixOf]
    · simp [hn] at h
  | cons a t ih =>
    simp only [bIndex] at h
    by_cases hp : needle.isPrefixOf (a :: t) = true
    · simp [hp] at h
      subst h
      refine ⟨hp, ?_⟩
      have := (List.isPrefixOf_iff_prefix.mp hp).length_le
      simpa using this
    · simp [hp] at h
      obtain ⟨j1, hj1, hje⟩ := h
      obtain ⟨ha, hb⟩ := ih j1 hj1
      subst hje
      exact ⟨ha, by simp only [List.length_cons]; omega⟩

lemma prefix_drop_goSlice (l needle : List Nat) (i : Nat)
    (h : needle.isPrefixOf (l.drop i) = true) :
    goSlice l i (i + needle.length) = needle := by
  have hp := List.isPrefixOf_iff_prefix.mp h
  have := List.prefix_iff_eq_take.mp hp
  simp only [goSlice, Nat.add_sub_cancel_left]
  exact this.symm

lemma runeToLower_ascii (b : Nat) (h : b < 128) :
    runeToLower b = if 65 ≤ b ∧ b ≤ 90 then b + 32 else b := by
  unfold runeToLower
  by_cases h1 : 65 ≤ b ∧ b ≤ 90
  · simp [h1]
  · have h2 : ¬(0xC0 ≤ b ∧ b ≤ 0xDE ∧ b ≠ 0xD7) := by omega
    have h3 : ¬(b = 0x212A) := by omega
    simp [h1, h2, h3]

lemma utf8Encode_ascii (r : Nat) (h : r < 128) : utf8Encode r = [r] := by
  simp [utf8Encode, h]

lemma utf8Step_ascii (b : Nat) (rest : List Nat) (h : b < 128) :
    utf8Step (b :: rest) = (b, rest) := by
  simp [utf8Step, h]

/-- On ASCII buffers the Unicode fold degenerates to the per-byte ASCII
case map (Go's fast path); in particular it preserves byte length. -/
lemma toLowerLoop_ascii (fuel : Nat) :
    ∀ (l : List Nat), l.length ≤ fuel → (∀ b ∈ l, b < 128) →
    toLowerLoop fuel l = l.map (fun b => if 65 ≤ b ∧ b ≤ 90 then b + 32 else b) := by
  induction fuel with
  | zero =>
    intro l hl _
    cases l with
    | nil => rfl
    | cons b rest => simp at hl
  | succ fuel ih =>
    intro l hl hascii
    cases l with
    | nil => rfl
    | cons b rest =>
      have hb : b < 128 := hascii b (by simp)
      have hr : ∀ x ∈ rest, x < 128 := fun x hx => hascii x (by simp [hx])
      have hlow : runeToLower b < 128 := by
        rw [runeToLower_ascii b hb]
        split <;> omega
      simp only [toLowerLoop, utf8Step_ascii b rest hb]
      rw [utf8Encode_ascii _ hlow, runeToLower_ascii b hb,
        ih rest (by simpa using hl) hr]
      simp

lemma toLowerBytes_ascii (l : List Nat) (h : ∀ b ∈ l, b < 128) :
    toLowerBytes l = l.map (fun b => if 65 ≤ b ∧ b ≤ 90 then b + 32 else b) :=
  toLowerLoop_ascii l.length l (le_refl _) h

lemma toLowerBytes_length_ascii (l : List Nat) (h : ∀ b ∈ l, b < 128) :
    (toLowerBytes l).length = l.length := by
  rw [toLowerBytes_ascii l h]
  simp

lemma findEff_length_ascii (find : List Nat) (ign : Bool)
    (h : ∀ b ∈ find, b < 128) :
    (findEff find ign).length = find.length := by
  cases ign
  · simp [findEff]
  · simp [findEff, toLowerBytes_length_ascii find h]

lemma dropCR_subset (l : List Nat) : ∀ b ∈ dropCR l, b ∈ l := by
  intro b hb
  unfold dropCR at hb
  split at hb
  · exact List.dropLast_subset l hb
  · exact hb

/-- Every byte of every line produced by the splitter is a byte of the
input stream (splitting only removes separators). -/
lemma splitLinesAux_mem (c : Nat) :
    ∀ (l cur line : List Nat), line ∈ splitLinesAux cur l → c ∈ line →
      c ∈ cur ∨ c ∈ l := by
  intro l
  induction l with
  | nil =>
    intro cur line hline hc
    simp only [splitLinesAux] at hline
    by_cases hcur : cur = []
    · simp [hcur] at hline
    · simp only [if_neg hcur, List.mem_singleton] at hline
      subst hline
      exact Or.inl (by simpa using dropCR_subset cur.reverse c hc)
  | cons b0 rest ih =>
    intro cur line hline hc
    by_cases h10 : b0 = 10
    · subst h10
      rw [splitLinesAux.eq_2] at hline
      rcases List.mem_cons.mp hline with h1 | h1
      · subst h1
        exact Or.inl (by simpa using dropCR_subset cur.reverse c hc)
      · rcases ih [] line h1 hc with h | h
        · simp at h
        · exact Or.inr (by simp [h])
    · rw [splitLinesAux.eq_3 cur b0 rest (by omega)] at hline
      rcases ih (b0 :: cur) line hline hc with h | h
      · rcases List.mem_cons.mp h with h | h
        · exact Or.inr (by simp [h])
        · exact Or.inl h
      · exact Or.inr (by simp [h])

lemma splitLines_mem (input line : List Nat) (hline : line ∈ splitLines input)
    (c : Nat) (hc : c ∈ line) : c ∈ input := by
  rcases splitLinesAux_mem c input [] line hline hc with h | h
  · simp at h
  · exact h

/-- Every match emitted by the inner loop lies on the current line, its
region records the loop's cursor positions and the snippet is assembled
from the original line bytes `bo`. -/
lemma searchLoop_mem (ctx : Nat) (bo b findeff : List Nat) (ln : Nat)
    (hlen : b.length = bo.length) :
    ∀ fuel ci m, m ∈ searchLoop ctx bo b findeff ln ci fuel →
      ∃ i, ci ≤ i ∧ i + findeff.length ≤ b.length ∧
        m.Reg = ⟨ln, i, ln, i + findeff.length⟩ ∧
        findeff.isPrefixOf (b.drop i) = true ∧
        m.Text = goSlice bo (i - ctx) i ++ mstBytes ++ goSlice bo i (i + findeff.length)
          ++ medBytes ++ goSlice bo (i + findeff.length)
            (min (i + findeff.length + ctx) bo.length) := by
  intro fuel
  induction fuel with
  | zero => intro ci m hm; simp [searchLoop] at hm
  | succ fuel ih =>
    intro ci m hm
    simp only [searchLoop] at hm
    by_cases hci : ci < b.length
    · simp only [if_pos hci] at hm
      cases hidx : bIndex (b.drop ci) findeff with
      | none => rw [hidx] at hm; simp at hm
      | some j =>
        rw [hidx] at hm
        obtain ⟨hpre, hjb⟩ := bIndex_some _ _ _ hidx
        have hdl : (b.drop ci).length = b.length - ci := List.length_drop ci b
        simp only [List.mem_cons] at hm
        rcases hm with hm | hm
        · refine ⟨j + ci, by omega, by omega, ?_, ?_, ?_⟩
          · rw [hm]
          · rw [List.drop_drop] at hpre
            have : ci + j = j + ci := by omega
            rw [this] at hpre
            exact hpre
          · rw [hm]
            simp only
            rw [snippetOf_eq bo (j + ci) (j + ci + findeff.length) (j + ci - ctx)
              (min (j + ci + findeff.length + ctx) b.length) findeff.length
              (by omega) (by omega) (by omega) (by omega) (by omega)]
            rw [hlen]
        · obtain ⟨i, hi1, hrest⟩ := ih (j + ci + findeff.length) m hm
          exact ⟨i, by omega, hrest⟩
    · simp only [if_neg hci] at hm
      simp at hm

/-- Every match produced by the line loop comes from some line of the
input, at a line number offset by the starting counter. -/
lemma lineLoop_mem (ctx : Nat) (findeff : List Nat) (ign : Bool) :
    ∀ lines ln0 m, m ∈ lineLoop ctx findeff ign ln0 lines →
      ∃ k bo, lines[k]? = some bo ∧
        m ∈ searchLoop ctx bo (if ign then toLowerBytes bo else bo) findeff (ln0 + k) 0
          ((if ign then toLowerBytes bo else bo).length + 1) := by
  intro lines
  induction lines with
  | nil => intro ln0 m hm; simp [lineLoop] at hm
  | cons bo rest ih =>
    intro ln0 m hm
    simp only [lineLoop, List.mem_append] at hm
    rcases hm with hm | hm
    · exact ⟨0, bo, by simp, by simpa using hm⟩
    · obtain ⟨k, bo1, hget, hmem⟩ := ih (ln0 + 1) m hm
      refine ⟨k + 1, bo1, by simpa using hget, ?_⟩
      have : ln0 + 1 + k = ln0 + (k + 1) := by omega
      rw [this] at hmem
      exact hmem

/-! ## Claim theorems for the search engine -/


/-- C2: searching the single line "foo bar foo" for "foo" case-sensitively
returns count 2 with match regions at byte columns [0,3) and [8,11) on
line 0; case-insensitive search for "FOO" on the same line returns the
same 2 regions; and for every input, a zero-length pattern returns count
0 and a nil match list. -/
theorem C2_search_correct :
    ((byteBufSearch fileSearchContext (strBytes "foo bar foo") (strBytes "foo") false).1 = 2
      ∧ (byteBufSearch fileSearchContext (strBytes "foo bar foo") (strBytes "foo") false).2.map
          FileSearchMatch.Reg = [⟨0, 0, 0, 3⟩, ⟨0, 8, 0, 11⟩])
    ∧ ((byteBufSearch fileSearchContext (strBytes "foo bar foo") (strBytes "FOO") true).1 = 2
      ∧ (byteBufSearch fileSearchContext (strBytes "foo bar foo") (strBytes "FOO") true).2.map
          FileSearchMatch.Reg = [⟨0, 0, 0, 3⟩, ⟨0, 8, 0, 11⟩])
    ∧ (∀ ctx input find ign, find.length = 0 →
        byteBufSearch ctx input find ign = (0, [])) := by
  refine ⟨⟨by decide, by decide⟩, ⟨by decide, by decide⟩, ?_⟩
  intro ctx input find ign h
  simp [byteBufSearch, h]

/-- Witness for C2: the zero-length-pattern clause evaluated at a
concrete input. -/
theorem C2_search_correct_witness :
    ([] : List Nat).length = 0
    ∧ byteBufSearch 30 (strBytes "abc") [] true = (0, []) :=
  ⟨by decide, C2_search_correct.2.2 30 (strBytes "abc") [] true (by decide)⟩

/-- C3: with context width 3 and line "0123456789" matching "456" at
columns [4,7), the snippet equals "123" + start-mark + "456" + end-mark
+ "789"; the context is clamped at the line start ("012" match) and at
the line end ("789" match). -/
theorem C3_snippet_boundaries :
    byteBufSearch 3 (strBytes "0123456789") (strBytes "456") false
      = (1, [⟨⟨0, 4, 0, 7⟩, strBytes "123<mark>456</mark>789"⟩])
    ∧ byteBufSearch 3 (strBytes "0123456789") (strBytes "012") false
      = (1, [⟨⟨0, 0, 0, 3⟩, strBytes "<mark>012</mark>345"⟩])
    ∧ byteBufSearch 3 (strBytes "0123456789") (strBytes "789") false
      = (1, [⟨⟨0, 7, 0, 10⟩, strBytes "456<mark>789</mark>"⟩]) :=
  ⟨by decide, by decide, by decide⟩

/-- C7 counterexample: on the line Kelvin-sign ++ "FOO" (case-insensitive
search for "foo"), Go's Unicode fold shrinks the three-byte Kelvin sign
to the single byte 'k', shifting every folded-line offset left by two.
The single reported match therefore carries columns [1,4) although the
match "FOO" sits at [3,6) of the original line, and its snippet is not
the original-line assembly at the reported columns — refuting the
original universally quantified claim at an explicit concrete input. -/
theorem C7_counterexample :
    (∃ m ∈ (byteBufSearch fileSearchContext kelvinLine (strBytes "foo") true).2,
      ¬ ∃ ln bo i, (splitLines kelvinLine)[ln]? = some bo ∧
        m.Reg = ⟨ln, i, ln, i + (strBytes "foo").length⟩ ∧
        i + (strBytes "foo").length ≤ bo.length ∧
        goSlice (toLowerBytes bo) i (i + (strBytes "foo").length)
          = findEff (strBytes "foo") true ∧
        m.Text = goSlice bo (i - fileSearchContext) i ++ mstBytes
          ++ goSlice bo i (i + (strBytes "foo").length) ++ medBytes
          ++ goSlice bo (i + (strBytes "foo").length)
            (min (i + (strBytes "foo").length + fileSearchContext) bo.length))
    ∧ (byteBufSearch fileSearchContext kelvinLine (strBytes "foo") true).2.map
        FileSearchMatch.Reg = [⟨0, 1, 0, 4⟩]
    ∧ goSlice kelvinLine 3 6 = strBytes "FOO"
    ∧ goSlice kelvinLine 1 4 ≠ strBytes "FOO" := by
  refine ⟨⟨⟨⟨0, 1, 0, 4⟩,
    [226, 60, 109, 97, 114, 107, 62, 132, 170, 70, 60, 47, 109, 97, 114, 107, 62]⟩,
    by decide, ?_⟩, by decide, by decide, by decide⟩
  rintro ⟨ln, bo, i, hget, hreg, _hib, _hpre, htxt⟩
  injection hreg with e1 e2 e3 e4
  subst e1
  subst e2
  have hsplit : splitLines kelvinLine = [kelvinLine] := by decide
  rw [hsplit] at hget
  simp at hget
  subst hget
  exact absurd htxt (by decide)

/-- C7 (amended): in case-insensitive mode the substring scan runs over
the folded line with the folded needle (fourth conjunct); for ASCII
input and ASCII pattern — where Go's fold is width-preserving — every
reported match region's byte columns index the line and every snippet
byte outside the two inserted markup tokens is taken from the original,
unfolded line bytes `bo` (final conjunct).  The ASCII restriction is
forced by the counterexample above: width-changing Unicode case maps
make the folded-line columns misalign with the original bytes. -/
theorem C7_unfolded_bytes_ascii :
    ∀ ctx input find ign m,
      (∀ b ∈ input, b < 128) → (∀ b ∈ find, b < 128) →
      m ∈ (byteBufSearch ctx input find ign).2 →
      ∃ ln bo i, (splitLines input)[ln]? = some bo ∧
        m.Reg = ⟨ln, i, ln, i + find.length⟩ ∧
        i + find.length ≤ bo.length ∧
        goSlice (if ign then toLowerBytes bo else bo) i (i + find.length)
          = findEff find ign ∧
        m.Text = goSlice bo (i - ctx) i ++ mstBytes ++ goSlice bo i (i + find.length)
          ++ medBytes ++ goSlice bo (i + find.length)
            (min (i + find.length + ctx) bo.length) := by
  intro ctx input find ign m hin hfa hm
  by_cases h0 : find.length = 0
  · simp [byteBufSearch, h0] at hm
  · simp only [byteBufSearch, if_neg h0] at hm
    obtain ⟨k, bo, hget, hmem⟩ :=
      lineLoop_mem ctx (findEff find ign) ign (splitLines input) 0 m hm
    have hbo : ∀ b ∈ bo, b < 128 := by
      intro b hb
      have hbm : bo ∈ splitLines input := List.getElem?_mem hget
      exact hin b (splitLines_mem input bo hbm b hb)
    have hlen : (if ign then toLowerBytes bo else bo).length = bo.length := by
      cases ign
      · simp
      · simp [toLowerBytes_length_ascii bo hbo]
    have hfel : (findEff find ign).length = find.length :=
      findEff_length_ascii find ign hfa
    obtain ⟨i, _hci, hib, hreg, hpre, htxt⟩ :=
      searchLoop_mem ctx bo (if ign then toLowerBytes bo else bo)
        (findEff find ign) (0 + k) hlen _ 0 m hmem
    have hmid := prefix_drop_goSlice (if ign then toLowerBytes bo else bo)
      (findEff find ign) i hpre
    rw [hfel] at hib hreg htxt hmid
    refine ⟨k, bo, i, hget, ?_, by omega, hmid, htxt⟩
    rw [hreg]
    simp

/-- Witness for the amended C7: the theorem applied to the first match of
the case-insensitive example search on ASCII input. -/
theorem C7_unfolded_bytes_ascii_witness :
    (∀ b ∈ strBytes "foo bar foo", b < 128)
    ∧ (∀ b ∈ strBytes "FOO", b < 128)
    ∧ (⟨⟨0, 0, 0, 3⟩, strBytes "<mark>foo</mark> bar foo"⟩ : FileSearchMatch)
      ∈ (byteBufSearch 30 (strBytes "foo bar foo") (strBytes "FOO") true).2
    ∧ ∃ ln bo i, (splitLines (strBytes "foo bar foo"))[ln]? = some bo ∧
        (⟨⟨0, 0, 0, 3⟩, strBytes "<mark>foo</mark> bar foo"⟩ : FileSearchMatch).Reg
          = ⟨ln, i, ln, i + (strBytes "FOO").length⟩ ∧
        i + (strBytes "FOO").length ≤ bo.length ∧
        goSlice (toLowerBytes bo) i (i + (strBytes "FOO").length)
          = findEff (strBytes "FOO") true ∧
        (⟨⟨0, 0, 0, 3⟩, strBytes "<mark>foo</mark> bar foo"⟩ : FileSearchMatch).Text
          = goSlice bo (i - 30) i ++ mstBytes ++ goSlice bo i (i + (strBytes "FOO").length)
            ++ medBytes ++ goSlice bo (i + (strBytes "FOO").length)
              (min (i + (strBytes "FOO").length + 30) bo.length) := by
  refine ⟨by decide, by decide, by decide, ?_⟩
  have h := C7_unfolded_bytes_ascii 30 (strBytes "foo bar foo") (strBytes "FOO") true
    ⟨⟨0, 0, 0, 3⟩, strBytes "<mark>foo</mark> bar foo"⟩ (by decide) (by decide) (by decide)
  simpa using h

/-- C8: the whole-file search variant returns zero matches and a nil list
when the file cannot be opened (never a half-built match list), otherwise
delegates to the stream variant, and in either case the set of open file
handles afterwards equals the set before (the deferred close runs on
every outcome). -/
theorem C8_fileSearch_io :
    ∀ ffs opened ctx filename find ign,
      (ffs.files filename = none →
        fileSearch ffs opened ctx filename find ign = ((0, []), opened))
      ∧ (∀ content, ffs.files filename = some content →
        fileSearch ffs opened ctx filename find ign
          = (byteBufSearch ctx content find ign, opened)) := by
  intro ffs opened ctx filename find ign
  constructor
  · intro h
    simp [fileSearch, h]
  · intro content h
    simp [fileSearch, h, List.erase_cons_head]

/-- Witness for C8: both branches of the theorem at concrete inputs. -/
theorem C8_fileSearch_io_witness :
    ffsDemo.files "g" = none
    ∧ fileSearch ffsDemo ["h"] 30 "g" (strBytes "foo") false = ((0, []), ["h"])
    ∧ ffsDemo.files "f" = some (strBytes "foo bar foo")
    ∧ fileSearch ffsDemo ["h"] 30 "f" (strBytes "foo") false
        = (byteBufSearch 30 (strBytes "foo bar foo") (strBytes "foo") false, ["h"]) :=
  ⟨rfl, (C8_fileSearch_io ffsDemo ["h"] 30 "g" (strBytes "foo") false).1 rfl,
   rfl, (C8_fileSearch_io ffsDemo ["h"] 30 "f" (strBytes "foo") false).2 _ rfl⟩

/-! ## OpenDirMap lemmas and mark/sweep claim -/

lemma isOpen_map_none (m : OpenDirMap) (a : String) (h : m.lookup a = none) :
    (m.IsOpen a).1 = m := by
  simp [OpenDirMap.IsOpen, h]

lemma lookup_none_keys (m : OpenDirMap) (a : String) (h : m.lookup a = none) :
    ∀ e ∈ m, e.1 ≠ a := by
  intro e he
  simp only [OpenDirMap.lookup] at h
  cases hf : List.find? (fun e => decide (e.1 = a)) m with
  | some x => rw [hf] at h; simp at h
  | none =>
    have := List.find?_eq_none.mp hf e he
    simpa using this

/-- Marking the keys of `S` over a map sets each entry's flag to its old
flag or-ed with membership of its key in `S`. -/
lemma markAllOpen_spec : ∀ (S : List String) (m : OpenDirMap),
    markAllOpen m S = m.map (fun e => (e.1, e.2 || S.contains e.1)) := by
  intro S
  induction S with
  | nil =>
    intro m
    simp [markAllOpen]
  | cons a S ih =>
    intro m
    have step : markAllOpen m (a :: S) = markAllOpen (m.IsOpen a).1 S := rfl
    rw [step, ih]
    cases hl : m.lookup a with
    | none =>
      rw [isOpen_map_none m a hl]
      refine List.map_congr_left ?_
      intro e he
      have hne := lookup_none_keys m a hl e he
      simp [List.contains_cons, hne]
    | some v =>
      simp only [OpenDirMap.IsOpen, hl, List.map_map]
      refine List.map_congr_left ?_
      intro e _he
      by_cases hea : e.1 = a
      · simp [Function.comp, hea, List.contains_cons]
      · simp [Function.comp, hea, List.contains_cons]

/-- C4: clearing all flags, marking a set `S` of keys via `IsOpen`, then
sweeping with `RemoveStale` leaves exactly the keys of `S` that were
present before; concretely, from keys {A, B, C} marking only {A, C}
leaves exactly {A, C}. -/
theorem C4_mark_sweep :
    (∀ (m : OpenDirMap) (S : List String) (k : String),
      (∃ v, (k, v) ∈ (markAllOpen m.ClearFlags S).RemoveStale)
        ↔ ((∃ v, (k, v) ∈ m) ∧ k ∈ S))
    ∧ (markAllOpen (OpenDirMap.ClearFlags
        [("A", true), ("B", false), ("C", true)]) ["A", "C"]).RemoveStale
      = [("A", true), ("C", true)] := by
  constructor
  · intro m S k
    rw [markAllOpen_spec]
    simp only [OpenDirMap.RemoveStale, OpenDirMap.ClearFlags, List.map_map,
      List.mem_filter, List.mem_map, Function.comp]
    constructor
    · rintro ⟨v, ⟨e, he, heq⟩, hv⟩
      have h1 : e.1 = k := congrArg Prod.fst heq
      have h2 : (false || S.contains e.1) = v := congrArg Prod.snd heq
      subst h1
      refine ⟨⟨e.2, by simpa using he⟩, ?_⟩
      rw [← h2] at hv
      simpa using hv
    · rintro ⟨⟨v, hv⟩, hkS⟩
      refine ⟨false || S.contains k, ⟨⟨(k, v), hv, rfl⟩, ?_⟩⟩
      simpa using hkS
  · decide

/-! ## Tree lemmas and claims -/

@[simp] lemma SetName_Nm (fn : FileNode) (n : String) : (fn.SetName n).Nm = n := by
  cases fn; rfl
@[simp] lemma SetName_Buf (fn : FileNode) (n : String) : (fn.SetName n).Buf = fn.Buf := by
  cases fn; rfl
@[simp] lemma SetName_Kids (fn : FileNode) (n : String) : (fn.SetName n).Kids = fn.Kids := by
  cases fn; rfl
@[simp] lemma SetName_opn (fn : FileNode) (n : String) : (fn.SetName n).opn = fn.opn := by
  cases fn; rfl
@[simp] lemma setFPath_Nm (fn : FileNode) (p : DirPath) : (fn.setFPath p).Nm = fn.Nm := by
  cases fn; rfl
@[simp] lemma setFPath_FPath (fn : FileNode) (p : DirPath) : (fn.setFPath p).FPath = p := by
  cases fn; rfl
@[simp] lemma setFPath_Buf (fn : FileNode) (p : DirPath) : (fn.setFPath p).Buf = fn.Buf := by
  cases fn; rfl
@[simp] lemma setFPath_Kids (fn : FileNode) (p : DirPath) : (fn.setFPath p).Kids = fn.Kids := by
  cases fn; rfl
@[simp] lemma setFPath_opn (fn : FileNode) (p : DirPath) : (fn.setFPath p).opn = fn.opn := by
  cases fn; rfl
@[simp] lemma setInfo_Nm (fn : FileNode) (i : FileInfo) : (fn.setInfo i).Nm = fn.Nm := by
  cases fn; rfl
@[simp] lemma setInfo_FPath (fn : FileNode) (i : FileInfo) : (fn.setInfo i).FPath = fn.FPath := by
  cases fn; rfl
@[simp] lemma setInfo_Buf (fn : FileNode) (i : FileInfo) : (fn.setInfo i).Buf = fn.Buf := by
  cases fn; rfl
@[simp] lemma setInfo_Kids (fn : FileNode) (i : FileInfo) : (fn.setInfo i).Kids = fn.Kids := by
  cases fn; rfl
@[simp] lemma setInfo_opn (fn : FileNode) (i : FileInfo) : (fn.setInfo i).opn = fn.opn := by
  cases fn; rfl
@[simp] lemma SetOpen_Nm (fn : FileNode) : fn.SetOpen.Nm = fn.Nm := by cases fn; rfl
@[simp] lemma SetOpen_Buf (fn : FileNode) : fn.SetOpen.Buf = fn.Buf := by cases fn; rfl
@[simp] lemma SetOpen_Kids (fn : FileNode) : fn.SetOpen.Kids = fn.Kids := by cases fn; rfl
@[simp] lemma SetOpen_opn (fn : FileNode) : fn.SetOpen.opn = true := by cases fn; rfl
@[simp] lemma setKids_Nm (fn : FileNode) (k : List FileNode) : (fn.setKids k).Nm = fn.Nm := by
  cases fn; rfl
@[simp] lemma setKids_Buf (fn : FileNode) (k : List FileNode) : (fn.setKids k).Buf = fn.Buf := by
  cases fn; rfl
@[simp] lemma setKids_Kids (fn : FileNode) (k : List FileNode) : (fn.setKids k).Kids = k := by
  cases fn; rfl
@[simp] lemma setKids_opn (fn : FileNode) (k : List FileNode) : (fn.setKids k).opn = fn.opn := by
  cases fn; rfl

lemma ReadDir_Buf (fs : FS) (fuel : Nat) (rt : FileTreeState) (fn : FileNode)
    (path : DirPath) : (FileNode.ReadDir fs fuel rt fn path).2.1.Buf = fn.Buf := by
  cases fuel with
  | zero => rfl
  | succ fuel =>
    simp only [FileNode.ReadDir]
    cases fs.stat path with
    | none => simp
    | some info => simp

lemma ReadDir_Nm_or (fs : FS) (fuel : Nat) (rt : FileTreeState) (fn : FileNode)
    (path : DirPath) :
    (FileNode.ReadDir fs fuel rt fn path).2.1.Nm = fn.Nm
    ∨ (FileNode.ReadDir fs fuel rt fn path).2.1.Nm = baseName path := by
  cases fuel with
  | zero => exact Or.inl rfl
  | succ fuel =>
    simp only [FileNode.ReadDir]
    cases fs.stat path with
    | none => simp
    | some info => simp

lemma UpdateNode_Buf (fs : FS) (fuel : Nat) (rt : FileTreeState) (fn : FileNode) :
    (FileNode.UpdateNode fs fuel rt fn).2.1.Buf = fn.Buf := by
  cases fuel with
  | zero => rfl
  | succ fuel =>
    simp only [FileNode.UpdateNode]
    cases fs.stat fn.FPath with
    | none => simp
    | some info =>
      simp only
      by_cases hd : info.IsDir
      · simp only [hd, if_true]
        by_cases ho : (isDirOpenRoot rt (fn.setInfo info).FPath).2
        · simp only [ho, if_true, ReadDir_Buf, setInfo_Buf]
        · simp only [ho, if_false]
          simp
      · simp [hd]

lemma UpdateNode_Nm_or (fs : FS) (fuel : Nat) (rt : FileTreeState) (fn : FileNode) :
    (FileNode.UpdateNode fs fuel rt fn).2.1.Nm = fn.Nm
    ∨ (FileNode.UpdateNode fs fuel rt fn).2.1.Nm = baseName fn.FPath := by
  cases fuel with
  | zero => exact Or.inl rfl
  | succ fuel =>
    simp only [FileNode.UpdateNode, setInfo_FPath]
    cases fs.stat fn.FPath with
    | none => simp
    | some info =>
      simp only
      by_cases hd : info.IsDir
      · simp only [hd, if_true]
        by_cases ho : (isDirOpenRoot rt fn.FPath).2
        · simp only [ho, if_true]
          have h := ReadDir_Nm_or fs fuel (isDirOpenRoot rt fn.FPath).1
            (fn.setInfo info) fn.FPath
          simp only [setInfo_Nm] at h
          exact h
        · simp [ho]
      · simp [hd]

lemma SetNodePath_Buf (fs : FS) (fuel : Nat) (rt : FileTreeState) (fn : FileNode)
    (path : DirPath) :
    (FileNode.SetNodePath fs fuel rt fn path).2.1.Buf = fn.Buf := by
  cases fuel with
  | zero => rfl
  | succ fuel =>
    simp only [FileNode.SetNodePath]
    rw [UpdateNode_Buf]
    simp

lemma SetNodePath_Nm_or (fs : FS) (fuel : Nat) (rt : FileTreeState) (fn : FileNode)
    (path : DirPath) :
    (FileNode.SetNodePath fs fuel rt fn path).2.1.Nm = fn.Nm
    ∨ (FileNode.SetNodePath fs fuel rt fn path).2.1.Nm = baseName path := by
  cases fuel with
  | zero => exact Or.inl rfl
  | succ fuel =>
    simp only [FileNode.SetNodePath]
    have h := UpdateNode_Nm_or fs fuel rt (fn.setFPath path)
    simp only [setFPath_Nm, setFPath_FPath] at h
    exact h

lemma baseName_join (p : DirPath) (n : String) : baseName (joinPath p n) = n := by
  simp [baseName, joinPath]

lemma updateKidsLoop_NmBuf (fs : FS) :
    ∀ (fuel : Nat) (rt : FileTreeState) (kids : List FileNode) (path : DirPath),
    (updateKidsLoop fs fuel rt kids path).2.map (fun k => (k.Nm, k.Buf))
      = kids.map (fun k => (k.Nm, k.Buf)) := by
  intro fuel
  induction fuel with
  | zero => intro rt kids path; rfl
  | succ fuel ih =>
    intro rt kids path
    cases kids with
    | nil => rfl
    | cons k ks =>
      simp only [updateKidsLoop, List.map_cons]
      rw [ih]
      have hb := SetNodePath_Buf fs fuel rt k (joinPath path k.Nm)
      have hn := SetNodePath_Nm_or fs fuel rt k (joinPath path k.Nm)
      rw [baseName_join] at hn
      have hn2 : (FileNode.SetNodePath fs fuel rt k (joinPath path k.Nm)).2.1.Nm = k.Nm := by
        rcases hn with h | h <;> exact h
      rw [hb, hn2]

lemma config_foldl_true (t : Nat) :
    ∀ (l : List FileInfo) (c1 c2 : List (Nat × String)),
    l.foldl (fun cfg e => if e.IsDir then (cfg.1 ++ [(t, e.Name)], cfg.2)
      else (cfg.1, cfg.2 ++ [(t, e.Name)])) (c1, c2)
    = (c1 ++ (l.filter (fun e => e.IsDir)).map (fun e => (t, e.Name)),
       c2 ++ (l.filter (fun e => !e.IsDir)).map (fun e => (t, e.Name))) := by
  intro l
  induction l with
  | nil => intro c1 c2; simp
  | cons e l ih =>
    intro c1 c2
    by_cases hd : e.IsDir
    · simp only [List.foldl_cons, hd, if_true, ih, List.filter_cons]
      simp [hd]
    · simp only [List.foldl_cons, hd, if_false, ih, List.filter_cons]
      simp [hd]

lemma config_foldl_false (t : Nat) :
    ∀ (l : List FileInfo) (c1 c2 : List (Nat × String)),
    l.foldl (fun cfg e => (cfg.1 ++ [(t, e.Name)], cfg.2)) (c1, c2)
    = (c1 ++ l.map (fun e => (t, e.Name)), c2) := by
  intro l
  induction l with
  | nil => intro c1 c2; simp
  | cons e l ih =>
    intro c1 c2
    simp [List.foldl_cons, ih]

lemma configOfFiles_eq (rt : FileTreeState) (fs : FS) (path : DirPath) :
    FileNode.ConfigOfFiles rt fs path
      = if rt.DirsOnTop then
          ((fs.listing path).filter (fun e => e.IsDir)).map (fun e => (rt.NodeType, e.Name))
          ++ ((fs.listing path).filter (fun e => !e.IsDir)).map (fun e => (rt.NodeType, e.Name))
        else (fs.listing path).map (fun e => (rt.NodeType, e.Name)) := by
  by_cases hdt : rt.DirsOnTop
  · simp only [FileNode.ConfigOfFiles, hdt, if_true]
    rw [config_foldl_true rt.NodeType (fs.listing path) [] []]
    simp
  · simp only [FileNode.ConfigOfFiles, hdt, if_false, Bool.false_eq_true]
    rw [config_foldl_false rt.NodeType (fs.listing path) [] []]
    simp [hdt]

lemma ConfigChildren_pairs (old : List FileNode) (config : List (Nat × String)) :
    (ConfigChildren old config).map (fun k => (k.typ, k.Nm)) = config := by
  simp only [ConfigChildren, List.map_map]
  have : ∀ tn ∈ config, ((fun k => (k.typ, k.Nm)) ∘ (fun tn =>
      match old.find? (fun k => k.typ == tn.1 && k.Nm == tn.2) with
      | some k => k
      | none => FileNode.mk tn.1 tn.2 [] ⟨tn.2, false⟩ false none [])) tn = id tn := by
    intro tn _
    simp only [Function.comp, id]
    cases hf : old.find? (fun k => k.typ == tn.1 && k.Nm == tn.2) with
    | some k =>
      have hp := List.find?_some hf
      simp only [Bool.and_eq_true, beq_iff_eq] at hp
      simp [hp.1, hp.2]
    | none => rfl
  rw [List.map_congr_left this]
  simp

lemma ConfigChildren_mem (old : List FileNode) (config : List (Nat × String))
    (tn : Nat × String) (c : FileNode)
    (hc : old.find? (fun k => k.typ == tn.1 && k.Nm == tn.2) = some c)
    (htn : tn ∈ config) : c ∈ ConfigChildren old config := by
  simp only [ConfigChildren, List.mem_map]
  exact ⟨tn, htn, by rw [hc]⟩

lemma config_mem_of_listing (rt : FileTreeState) (fs : FS) (path : DirPath)
    (e : FileInfo) (he : e ∈ fs.listing path) :
    (rt.NodeType, e.Name) ∈ FileNode.ConfigOfFiles rt fs path := by
  rw [configOfFiles_eq]
  by_cases hdt : rt.DirsOnTop
  · simp only [hdt, if_true, List.mem_append, List.mem_map, List.mem_filter]
    by_cases hd : e.IsDir
    · exact Or.inl ⟨e, ⟨he, hd⟩, rfl⟩
    · exact Or.inr ⟨e, ⟨he, by simp [hd]⟩, rfl⟩
  · simp only [hdt, if_false, Bool.false_eq_true, List.mem_map]
    exact ⟨e, he, rfl⟩

lemma map_Nm_of_map_pair (xs ys : List FileNode)
    (h : xs.map (fun k => (k.Nm, k.Buf)) = ys.map (fun k => (k.Nm, k.Buf))) :
    xs.map FileNode.Nm = ys.map FileNode.Nm := by
  have hx : xs.map FileNode.Nm
      = (xs.map (fun k => (k.Nm, k.Buf))).map Prod.fst := by
    rw [List.map_map]; rfl
  have hy : ys.map FileNode.Nm
      = (ys.map (fun k => (k.Nm, k.Buf))).map Prod.fst := by
    rw [List.map_map]; rfl
  rw [hx, hy, h]

/-- C1: directory reconciliation preserves live state by (type, name)
identity: a child `c` holding a buffer whose (type, name) is present in
the fresh filesystem listing when `ReadDir` runs (same node type as the
tree's NodeType, and `c` is the child `ConfigChildren` matches for that
identity) is still a child after `ReadDir`, with its `Buf` reference
unchanged. -/
theorem C1_buffer_preserved (fs : FS) (fuel : Nat) (rt : FileTreeState)
    (fn : FileNode) (path : DirPath) (info : FileInfo) (c : FileNode)
    (hstat : fs.stat path = some info)
    (hfind : fn.Kids.find? (fun k => k.typ == rt.NodeType && k.Nm == c.Nm) = some c)
    (hlist : ∃ e ∈ fs.listing path, e.Name = c.Nm) :
    ∃ c2 ∈ (FileNode.ReadDir fs (fuel + 1) rt fn path).2.1.Kids,
      c2.Nm = c.Nm ∧ c2.Buf = c.Buf := by
  obtain ⟨e, he, hname⟩ := hlist
  have hcfg : (rt.NodeType, c.Nm) ∈ FileNode.ConfigOfFiles rt fs path := by
    rw [← hname]
    exact config_mem_of_listing rt fs path e he
  have hmem : c ∈ ConfigChildren fn.Kids (FileNode.ConfigOfFiles rt fs path) := by
    exact ConfigChildren_mem fn.Kids _ (rt.NodeType, c.Nm) c hfind hcfg
  simp only [FileNode.ReadDir, hstat, setKids_Kids, SetOpen_Kids, setInfo_Kids,
    setFPath_Kids, SetName_Kids]
  have hpair := updateKidsLoop_NmBuf fs fuel rt
    (ConfigChildren fn.Kids (FileNode.ConfigOfFiles rt fs path)) path
  have hcin : (c.Nm, c.Buf) ∈ (ConfigChildren fn.Kids
      (FileNode.ConfigOfFiles rt fs path)).map (fun k => (k.Nm, k.Buf)) :=
    List.mem_map.mpr ⟨c, hmem, rfl⟩
  rw [← hpair] at hcin
  obtain ⟨c2, hc2, heq⟩ := List.mem_map.mp hcin
  refine ⟨c2, hc2, ?_, ?_⟩
  · exact congrArg Prod.fst heq
  · exact congrArg Prod.snd heq

/-- C9: the order of a directory node's children after reconciliation is
a pure function of the filesystem listing and the sort policy — the
right-hand side mentions neither the prior children nor any other tree
state: with DirsOnTop set, all directory entries come first and all file
entries second, each group in enumeration order; otherwise all entries
appear in enumeration order. -/
theorem C9_child_order (fs : FS) (fuel : Nat) (rt : FileTreeState)
    (fn : FileNode) (path : DirPath) (info : FileInfo)
    (hstat : fs.stat path = some info) :
    (FileNode.ReadDir fs (fuel + 1) rt fn path).2.1.Kids.map FileNode.Nm
      = if rt.DirsOnTop then
          ((fs.listing path).filter (fun e => e.IsDir)).map FileInfo.Name
            ++ ((fs.listing path).filter (fun e => !e.IsDir)).map FileInfo.Name
        else (fs.listing path).map FileInfo.Name := by
  simp only [FileNode.ReadDir, hstat, setKids_Kids, SetOpen_Kids, setInfo_Kids,
    setFPath_Kids, SetName_Kids]
  have hpair := updateKidsLoop_NmBuf fs fuel rt
    (ConfigChildren fn.Kids (FileNode.ConfigOfFiles rt fs path)) path
  have hnames := map_Nm_of_map_pair _ _ hpair
  rw [hnames]
  have hp := ConfigChildren_pairs fn.Kids (FileNode.ConfigOfFiles rt fs path)
  have h2 : (ConfigChildren fn.Kids (FileNode.ConfigOfFiles rt fs path)).map FileNode.Nm
      = (FileNode.ConfigOfFiles rt fs path).map Prod.snd := by
    have := congrArg (List.map Prod.snd) hp
    rw [List.map_map] at this
    exact this
  rw [h2, configOfFiles_eq]
  have hsnd : ∀ (l : List FileInfo) (t : Nat),
      (l.map (fun e => (t, e.Name))).map Prod.snd = l.map FileInfo.Name := by
    intro l t
    rw [List.map_map]
    exact List.map_congr_left (fun e _ => rfl)
  by_cases hdt : rt.DirsOnTop
  · simp only [hdt, if_true, List.map_append, hsnd]
  · simp only [hdt, if_false, Bool.false_eq_true, hsnd]

/-- Witness for C1: in the demo tree the child "a" carries buffer 42 and
its name is in the fresh listing; after `ReadDir` a child with the same
name still holds buffer 42. -/
theorem C1_buffer_preserved_witness :
    (demoFS.stat ["r"] = some ⟨"r", true⟩
      ∧ demoNodeB.Kids.find? (fun k => k.typ == demoRT.NodeType && k.Nm == kidA.Nm)
          = some kidA
      ∧ ∃ e ∈ demoFS.listing ["r"], e.Name = kidA.Nm)
    ∧ ∃ c2 ∈ (FileNode.ReadDir demoFS 10 demoRT demoNodeB ["r"]).2.1.Kids,
        c2.Nm = kidA.Nm ∧ c2.Buf = kidA.Buf :=
  ⟨⟨rfl, rfl, ⟨⟨"a", false⟩, by decide, rfl⟩⟩,
   C1_buffer_preserved demoFS 9 demoRT demoNodeB ["r"] ⟨"r", true⟩ kidA rfl rfl
     ⟨⟨"a", false⟩, by decide, rfl⟩⟩

/-- Witness for C9 at the demo filesystem with DirsOnTop set. -/
theorem C9_child_order_witness :
    demoFS.stat ["r"] = some ⟨"r", true⟩
    ∧ (FileNode.ReadDir demoFS 10 demoRT demoNodeB ["r"]).2.1.Kids.map FileNode.Nm
      = if demoRT.DirsOnTop then
          ((demoFS.listing ["r"]).filter (fun e => e.IsDir)).map FileInfo.Name
            ++ ((demoFS.listing ["r"]).filter (fun e => !e.IsDir)).map FileInfo.Name
        else (demoFS.listing ["r"]).map FileInfo.Name :=
  ⟨rfl, C9_child_order demoFS 9 demoRT demoNodeB ["r"] ⟨"r", true⟩ rfl⟩

/-- C5 (amended): when the stat of the directory path fails, `ReadDir`
returns the I/O error to the caller, and the node keeps its previous
open flag (the open mark is only set after a successful stat, so the
node is NOT newly marked open), with children and buffer untouched; only
the name and path fields have been set. -/
theorem C5_stat_error_leaves_node (fs : FS) (fuel : Nat) (rt : FileTreeState)
    (fn : FileNode) (path : DirPath) (hstat : fs.stat path = none) :
    FileNode.ReadDir fs (fuel + 1) rt fn path
      = (rt, (fn.SetName (baseName path)).setFPath path, some ())
    ∧ (FileNode.ReadDir fs (fuel + 1) rt fn path).2.1.opn = fn.opn
    ∧ (FileNode.ReadDir fs (fuel + 1) rt fn path).2.1.Kids = fn.Kids
    ∧ (FileNode.ReadDir fs (fuel + 1) rt fn path).2.1.Buf = fn.Buf := by
  refine ⟨?_, ?_, ?_, ?_⟩ <;> simp [FileNode.ReadDir, hstat]

/-- C5 counterexample: for a node whose open flag is false, a failing
stat makes `ReadDir` return the error with the node still NOT marked
open — contradicting the claim that the node is left marked open. -/
theorem C5_counterexample :
    (FileNode.ReadDir fsFail 1 demoRT closedNode ["d"]).2.2 = some ()
    ∧ (FileNode.ReadDir fsFail 1 demoRT closedNode ["d"]).2.1.opn = false := by
  constructor
  · rfl
  · rfl

/-- Witness for the amended C5 at a concrete failing filesystem. -/
theorem C5_witness :
    fsFail.stat ["d"] = none
    ∧ (FileNode.ReadDir fsFail 1 demoRT closedNode ["d"]
        = (demoRT, (closedNode.SetName (baseName ["d"])).setFPath ["d"], some ())
      ∧ (FileNode.ReadDir fsFail 1 demoRT closedNode ["d"]).2.1.opn = closedNode.opn
      ∧ (FileNode.ReadDir fsFail 1 demoRT closedNode ["d"]).2.1.Kids = closedNode.Kids
      ∧ (FileNode.ReadDir fsFail 1 demoRT closedNode ["d"]).2.1.Buf = closedNode.Buf) :=
  ⟨rfl, C5_stat_error_leaves_node fsFail 0 demoRT closedNode ["d"] rfl⟩

lemma reachesMissing_loop (fs : FS) (fuel : Nat) (rt : FileTreeState)
    (cfn : FileNode) (dirs : List String) (out : FileTreeState × FileNode)
    (h : ReachesMissing fs fuel rt cfn dirs out) :
    openDirsToLoop fs fuel rt cfn dirs = (out.1, some out.2) := by
  induction h with
  | last hc =>
    simp [openDirsToLoop, hc]
  | step hc hdir hrest _hrec ih =>
    simp only [openDirsToLoop, hc, hdir, Bool.true_or, if_true]
    exact ih

lemma reachesNonDir_loop (fs : FS) (fuel : Nat) (rt : FileTreeState)
    (cfn : FileNode) (dirs : List String)
    (h : ReachesNonDir fs fuel rt cfn dirs) :
    (openDirsToLoop fs fuel rt cfn dirs).2 = none := by
  induction h with
  | here hc hdir hrest =>
    simp [openDirsToLoop, hc, hdir, hrest]
  | step hc hdir hrest _hrec ih =>
    simp only [openDirsToLoop, hc, hdir, Bool.true_or, if_true]
    exact ih

/-- C6: `OpenDirsTo` walks the relative path component by component.
When every non-terminal component resolves to a directory child and the
terminal component has no matching child, it returns the deepest found
ancestor with no error; when a non-terminal component resolves to an
existing child that is not a directory, it returns an error (`none`)
rather than descending further. -/
theorem C6_openDirsTo_walk :
    (∀ fs fuel rt fn path dirs out,
      relPath fn.FPath path = some dirs → dirs ≠ [] →
      ReachesMissing fs fuel rt fn dirs out →
      FileNode.OpenDirsTo fs fuel rt fn path = (out.1, some out.2))
    ∧ (∀ fs fuel rt fn path dirs,
      relPath fn.FPath path = some dirs →
      ReachesNonDir fs fuel rt fn dirs →
      (FileNode.OpenDirsTo fs fuel rt fn path).2 = none) := by
  constructor
  · intro fs fuel rt fn path dirs out hrel hne h
    cases dirs with
    | nil => exact absurd rfl hne
    | cons d rest =>
      simp only [FileNode.OpenDirsTo, hrel]
      exact reachesMissing_loop fs fuel rt fn (d :: rest) out h
  · intro fs fuel rt fn path dirs hrel h
    cases dirs with
    | nil => cases h
    | cons d rest =>
      simp only [FileNode.OpenDirsTo, hrel]
      exact reachesNonDir_loop fs fuel rt fn (d :: rest) h

/-- Witness for C6: both branches of the theorem at a concrete tree —
a missing terminal under an open directory child, and a file child in
non-terminal position. -/
theorem C6_witness :
    relPath treeB.FPath ["r", "d", "x"] = some ["d", "x"]
    ∧ ReachesMissing demoFS 5 demoRT treeB ["d", "x"] (demoRT, dirKid)
    ∧ FileNode.OpenDirsTo demoFS 5 demoRT treeB ["r", "d", "x"] = (demoRT, some dirKid)
    ∧ relPath demoNodeB.FPath ["r", "a", "y"] = some ["a", "y"]
    ∧ ReachesNonDir demoFS 5 demoRT demoNodeB ["a", "y"]
    ∧ (FileNode.OpenDirsTo demoFS 5 demoRT demoNodeB ["r", "a", "y"]).2 = none := by
  have hmiss : ReachesMissing demoFS 5 demoRT treeB ["d", "x"] (demoRT, dirKid) :=
    ReachesMissing.step rfl rfl (by decide) (ReachesMissing.last rfl)
  have hnd : ReachesNonDir demoFS 5 demoRT demoNodeB ["a", "y"] :=
    ReachesNonDir.here rfl rfl (by decide)
  refine ⟨rfl, hmiss, ?_, rfl, hnd, ?_⟩
  · exact C6_openDirsTo_walk.1 demoFS 5 demoRT treeB ["r", "d", "x"] ["d", "x"]
      (demoRT, dirKid) rfl (by decide) hmiss
  · exact C6_openDirsTo_walk.2 demoFS 5 demoRT demoNodeB ["r", "a", "y"] ["a", "y"]
      rfl hnd

/-- C10: `FindFile` is not total over all non-empty inputs: the leading
".." check slices the first two bytes of the search string
unconditionally, so every search string of length exactly 1 hits an
out-of-bounds slice (modelled as `none`); for any other length (empty,
or at least 2) the operation completes normally. -/
theorem C10_findFile_byte_check :
    (∀ (fs : FS) (fuel : Nat) (rt : FileTreeState) (fn : FileNode) (fnm : String),
      fnm.length = 1 → FileNode.FindFile fs fuel rt fn fnm = none)
    ∧ (∀ (fs : FS) (fuel : Nat) (rt : FileTreeState) (fn : FileNode) (fnm : String),
      fnm.length ≠ 1 → (FileNode.FindFile fs fuel rt fn fnm).isSome = true) := by
  constructor
  · intro fs fuel rt fn fnm hlen
    have hne : ¬(fnm = "") := by
      intro h
      subst h
      exact absurd hlen (by decide)
    have h2 : ¬(2 ≤ fnm.length) := by omega
    simp [FileNode.FindFile, hne, goTake2, h2]
  · intro fs fuel rt fn fnm hlen
    by_cases hne : fnm = ""
    · simp [FileNode.FindFile, hne]
    · have h0 : fnm.length ≠ 0 := by
        intro h
        apply hne
        cases fnm with
        | mk data =>
          cases data with
          | nil => rfl
          | cons c cs => exact absurd h (by simp [String.length])
      have h2 : 2 ≤ fnm.length := by omega
      simp only [FileNode.FindFile, hne, if_false, goTake2, h2, if_true]
      repeat' split
      all_goals simp

/-- Witness for C10: the length-1 input "x" triggers the out-of-bounds
slice. -/
theorem C10_witness :
    ("x".length = 1)
    ∧ FileNode.FindFile fsFail 1 demoRT closedNode "x" = none :=
  ⟨by decide, C10_findFile_byte_check.1 fsFail 1 demoRT closedNode "x" (by decide)⟩

end GivSpec
